import Mathlib

/-!
# Verification of the Asana-simulation generation pipeline

This file gives a shallow embedding, in Lean 4, of the core of the
`asana-simulation` repository (the dependency-ordered entity generation
pipeline) and proves properties of it.

Modelling conventions, used uniformly below:

* ISO dates (`YYYY-MM-DD` strings) are modelled as integers counting days
  since 1970-01-01.  The source's `_to_date` / `_to_str` conversions are a
  bijection between well-formed ISO strings and such day numbers, and
  comparison of parsed dates coincides with integer comparison, so both
  conversions are modelled as the identity.
* Calls to the seeded pseudorandom stream (`random.randint`,
  `random.random`, `random.choice`, ...) are modelled by explicit draw
  parameters (oracles): a `randint(lo, hi)` result is represented as
  `lo + draw % (hi - lo + 1)` for an arbitrary `draw : Nat`, and a
  `random.random()` result as a rational number.  Quantifying over all
  draws covers every value the stream can produce.
* `uuid.uuid4()` does not read the seeded stream: it draws from the
  operating system's entropy source.  It is therefore modelled by a
  separate entropy argument, distinct from the seeded draw oracles.
* External collaborators (the Faker-based profile provider, the LLM text
  provider with its local fallback, file-based prompt lists) are modelled
  as oracle inputs supplying their results.
* Fallible Python code (functions that `raise`) returns `Except String`.
-/

namespace Asana

/-! ## Day-number constants for the ISO date literals of the source -/

/-- Day number of 2021-01-01 (days since 1970-01-01). -/
def date_2021_01_01 : Int := 18628

/-- Day number of 2025-01-01. -/
def date_2025_01_01 : Int := 20089

/-- Day number of 2025-06-30. -/
def date_2025_06_30 : Int := 20269

/-- Day number of 2025-12-31. -/
def date_2025_12_31 : Int := 20453

/-! ## `src/utils/date_utils.py` -/

/-- Model of Python `random.randint(lo, hi)` for a call site whose
bounds satisfy `lo ≤ hi` (so the call cannot raise): the raw stream
value `draw` is reduced into the interval `[lo, hi]`.  The one call site
whose range can be empty — the `num_tasks` draw of `generate_tasks`,
where `randint` raises `ValueError` — is modelled separately, with its
emptiness check explicit (see `projectLoop`). -/
def pyRandint (lo hi : Int) (draw : Nat) : Int :=
  lo + ((draw % (hi - lo + 1).toNat : Nat) : Int)

/-- Shallow embedding of `random_date(start, end)` from
`src/utils/date_utils.py`: if the bounds are out of order they are
swapped, then a uniform day offset in `[0, delta_days]` is added to the
lower bound.  (The optional `seed` parameter of the source only reseeds
the global stream and does not affect the data flow.) -/
def random_date (start stop : Int) (draw : Nat) : Int :=
  let p := if start > stop then (stop, start) else (start, stop)
  let delta_days := p.2 - p.1
  p.1 + pyRandint 0 delta_days draw

/-- Result dictionary of `ensure_chronology`. -/
structure Chronology where
  created_at : Int
  due_date : Option Int
  completed_at : Option Int
deriving Repr, DecidableEq

/-- Shallow embedding of `ensure_chronology(created_at, due_date,
completed_at)` from `src/utils/date_utils.py`.  `dueDraw` and `compDraw`
are the stream values behind the two (conditional) `random.randint(1, 7)`
calls. -/
def ensure_chronology (created_at : Int) (due_date : Option Int := none)
    (completed_at : Option Int := none) (dueDraw compDraw : Nat := 0) : Chronology :=
  let created_dt := created_at
  let due_dt : Option Int :=
    match due_date with
    | some d => if d < created_dt then some (created_dt + pyRandint 1 7 dueDraw) else some d
    | none => none
  let completed_dt : Option Int :=
    match completed_at with
    | some c =>
      let reference_dt := due_dt.getD created_dt
      if c < reference_dt then some (reference_dt + pyRandint 1 7 compDraw) else some c
    | none => none
  { created_at := created_dt, due_date := due_dt, completed_at := completed_dt }

/-- Spec-side reconciliation algorithm, written from the words of §4.3 of
the specification (refinement target for the temporal-reconciliation
claim): step 1 keeps `created`; step 2 replaces a `due` earlier than
`created` by `created + u1`; step 3 computes the reference from the
possibly-corrected `due`; step 4 replaces a `completed` earlier than the
reference by `reference + u2`; step 5 returns the triple, absent fields
remaining absent.  `u1`, `u2` stand for the two uniform draws in `[1,7]`. -/
def spec_reconcile (created : Int) (due completed : Option Int) (u1 u2 : Int) : Chronology :=
  let due' : Option Int :=
    match due with
    | some d => if d < created then some (created + u1) else some d
    | none => none
  let reference := due'.getD created
  let completed' : Option Int :=
    match completed with
    | some c => if c < reference then some (reference + u2) else some c
    | none => none
  { created_at := created, due_date := due', completed_at := completed' }

/-! ## `src/utils/random_utils.py` -/

/-- Shallow embedding of `generate_uuid(prefix)` from
`src/utils/random_utils.py`.  The source calls `uuid.uuid4()`, which
draws from the operating system's entropy source (it never reads the
stream seeded by `random.seed`); `entropy` is that OS-supplied value. -/
def generate_uuid (pre : Option String) (entropy : String) : String :=
  match pre with
  | some p => p ++ "_" ++ entropy
  | none => entropy

/-- Running cumulative sums, as computed by `itertools.accumulate` inside
`random.choices`. -/
def cumsum (acc : Int) : List Int → List Int
  | [] => []
  | w :: ws => (acc + w) :: cumsum (acc + w) ws

/-- `bisect.bisect_right(a, x, lo, hi)` as called by `random.choices`:
binary search for the insertion point of `x` in `a[lo:hi]`. -/
def bisect_right (a : List ℚ) (x : ℚ) (lo hi : Nat) : Nat :=
  if h : lo < hi then
    let mid := (lo + hi) / 2
    if x < a.getD mid 0 then bisect_right a x lo mid
    else bisect_right a x (mid + 1) hi
  else lo
termination_by hi - lo
decreasing_by
  · omega
  · omega

/-- The `k = 1` case of Python's `random.choices(population,
weights=...)` (CPython ≥ 3.9): with `cum_weights` the running sums of the
weights, it errors when the weight total is not positive, and otherwise
returns `population[bisect_right(cum_weights, random() * total, 0, n-1)]`.
`r` is the `random.random()` draw in `[0, 1)`. -/
def python_choices_one (population : List String) (cum_weights : List Int)
    (r : ℚ) : Except String String :=
  let total : ℚ := ((cum_weights.getLastD 0 : Int) : ℚ)
  if total ≤ 0 then .error "Total of weights must be greater than zero"
  else
    let hi := population.length - 1
    .ok (population.getD (bisect_right (cum_weights.map fun w => ((w : Int) : ℚ)) (r * total) 0 hi) "")

/-- Shallow embedding of `weighted_choice(choices)` from
`src/utils/random_utils.py`: an explicit error on an empty mapping, then
`random.choices(items, weights=weights, k=1)[0]`.  The insertion-ordered
dict is a list of (label, weight) pairs; `r` is the `random.random()`
draw made inside `random.choices`. -/
def weighted_choice (choices : List (String × Int)) (r : ℚ) : Except String String :=
  if choices.isEmpty then .error "Choices dictionary cannot be empty"
  else
    let items := choices.map Prod.fst
    let weights := choices.map Prod.snd
    python_choices_one items (cumsum 0 weights) r

/-- `weighted_choice` at the repository's static weight tables, which are
non-empty with positive weights, never reaches an error; this total
wrapper is used at those call sites. -/
def weighted_choiceD (choices : List (String × Int)) (r : ℚ) : String :=
  (weighted_choice choices r).toOption.getD ""

/-! ## `src/generators/users.py` -/

/-- A user profile as returned by the external Identity Profile Provider
(`scrapers/names_scraper.py`, `generate_user_profile`); profiles are
supplied by an oracle, one per generated user. -/
structure Profile where
  name : String
  email : String
  role : String
deriving Repr, DecidableEq, Inhabited

/-- A team record as produced by `src/generators/teams.py` (the fields
`generate_users` and `generate_projects` read). -/
structure Team where
  team_id : String
  org_id : String
  name : String
  department : String
  description : String
  created_at : Int
deriving Repr, DecidableEq, Inhabited

/-- A user record, mirroring the dictionary built in `generate_users`. -/
structure User where
  user_id : String
  team_id : String
  name : String
  email : String
  role : String
  is_active : Bool
  joined_at : Int
deriving Repr, DecidableEq, Inhabited

/-- Base-10 digits of `n`, least significant first, with explicit fuel
(`fuel ≥ n` always suffices); agrees with `Nat.digits 10` (see
`toDecimalDigits_eq_digits`). -/
def toDecimalDigits : Nat → Nat → List Nat
  | 0, _ => []
  | fuel + 1, n => if n = 0 then [] else n % 10 :: toDecimalDigits fuel (n / 10)

/-- Decimal rendering of a natural number, as Python's string formatting
of the collision counter (`f-string` conversion of an `int`) produces:
most-significant digit first. -/
def pyStr (n : Nat) : String :=
  if n = 0 then "0" else ((toDecimalDigits n n).reverse.map Nat.digitChar).asString

/-- The part of `email` before the first `@`, i.e. `email.split("@", 1)[0]`. -/
def localPart (email : String) : String :=
  email.takeWhile (fun c => c != '@')

/-- The part of `email` after the first `@`, i.e. `email.split("@", 1)[1]`. -/
def domainPart (email : String) : String :=
  (email.dropWhile (fun c => c != '@')).drop 1

/-- The disambiguated candidate built in the collision loop of
`generate_users`: the f-string `f"{base_local}+{counter}@{domain}"`. -/
def dedupeCand (base domain : String) (counter : Nat) : String :=
  base ++ "+" ++ pyStr counter ++ "@" ++ domain

/-- The `while unique_email in seen_emails` loop of `generate_users`,
trying counters `counter, counter+1, ...` until the candidate is fresh.
The Python loop is unbounded; here it carries fuel, and
`uniqueEmail` supplies fuel that provably always suffices (see
`uniqueEmailLoop_fresh`), so the fuel-exhausted branch is unreachable. -/
def uniqueEmailLoop (base domain : String) (seen : Finset String) :
    Nat → Nat → String
  | 0, counter => dedupeCand base domain counter
  | fuel + 1, counter =>
    if dedupeCand base domain counter ∈ seen then
      uniqueEmailLoop base domain seen fuel (counter + 1)
    else dedupeCand base domain counter

/-- The email-uniqueness logic of `generate_users` for one candidate
email: if the provider's email is not yet taken it is used as is;
otherwise counters `2, 3, ...` are inserted before the `@` until a fresh
form is found. -/
def uniqueEmail (email : String) (seen : Finset String) : String :=
  if email ∈ seen then
    uniqueEmailLoop (localPart email) (domainPart email) seen (seen.card + 1) 2
  else email

/-- The inner (per-team-member) loop of `generate_users`: consumes one
profile from the provider oracle, resolves the email against the seen
set, inserts the resolved email into the seen set, and appends the user
record.  `profiles`, `activeGate`, `joinDraw` and `uuidE` are indexed by
the running number of users generated so far. -/
def userLoop (team : Team) (profiles : Nat → Profile) (activeGate : Nat → Bool)
    (joinDraw : Nat → Nat) (uuidE : Nat → String) :
    Nat → List User × Finset String → List User × Finset String
  | 0, st => st
  | n + 1, (users, seen) =>
    let i := users.length
    let profile := profiles i
    let email := uniqueEmail profile.email seen
    let u : User :=
      { user_id := generate_uuid (some "user") (uuidE i)
        team_id := team.team_id
        name := profile.name
        email := email
        role := profile.role
        is_active := activeGate i
        joined_at := random_date date_2021_01_01 date_2025_12_31 (joinDraw i) }
    userLoop team profiles activeGate joinDraw uuidE n (users ++ [u], insert email seen)

/-- The outer (per-team) loop of `generate_users`: the team size is the
even share of `total_users` plus one for the first `remainder` teams,
then adjusted by the `int(team_size * random.uniform(-0.1, 0.2))`
variation (whose value the `variation` oracle supplies), floored at 1. -/
def teamLoop (profiles : Nat → Profile) (activeGate : Nat → Bool)
    (joinDraw : Nat → Nat) (uuidE : Nat → String)
    (total_users num_teams : Nat) (variation : Nat → Int) :
    List Team → Nat → List User × Finset String → List User × Finset String
  | [], _, st => st
  | team :: rest, idx, st =>
    let base_users_per_team := total_users / num_teams
    let remainder := total_users % num_teams
    let sized := base_users_per_team + (if idx < remainder then 1 else 0)
    let team_size := (max 1 ((sized : Int) + variation idx)).toNat
    teamLoop profiles activeGate joinDraw uuidE total_users num_teams variation rest
      (idx + 1) (userLoop team profiles activeGate joinDraw uuidE team_size st)

/-- Shallow embedding of `generate_users(teams, total_users, company)`
from `src/generators/users.py`.  The `company` argument and the resolved
department only parameterise the external profile provider, which the
`profiles` oracle models, so they do not appear separately.  The final
`random.shuffle(users)` is modelled by the `shuffle` argument (theorems
assume only that it permutes its input), followed by the truncation
`users[:total_users]`. -/
def generate_users (teams : List Team) (total_users : Nat)
    (profiles : Nat → Profile) (variation : Nat → Int) (activeGate : Nat → Bool)
    (joinDraw : Nat → Nat) (uuidE : Nat → String)
    (shuffle : List User → List User) : Except String (List User) :=
  if teams.isEmpty then .error "Teams list cannot be empty"
  else
    let result := teamLoop profiles activeGate joinDraw uuidE total_users
      teams.length variation teams 0 ([], ∅)
    .ok ((shuffle result.1).take total_users)

/-! ## `src/generators/projects.py` -/

/-- A project record, mirroring the dictionary built in `generate_projects`. -/
structure Project where
  project_id : String
  team_id : String
  department : String
  name : String
  description : String
  status : String
  start_date : Int
  end_date : Option Int
  created_at : Int
deriving Repr, DecidableEq, Inhabited

/-- `_PROJECT_NAMES` from `src/generators/projects.py`. -/
def PROJECT_NAMES : List String :=
  ["Growth Analytics Platform", "Mobile Redesign Sprint", "Customer Portal",
   "Onboarding Revamp", "Marketing Automation Integration", "Internal API Gateway",
   "Security Audit 2024", "Employee Experience Dashboard",
   "Performance Reporting Tool", "Cloud Cost Optimizer"]

/-- `_STATUS_WEIGHTS` from `src/generators/projects.py`. -/
def PROJECT_STATUS_WEIGHTS : List (String × Int) :=
  [("Active", 60), ("Completed", 25), ("On Hold", 10), ("Not Started", 5)]

/-- `_DEPARTMENTS`, the static list returned by `get_departments()` in
`src/scrapers/company_scraper.py`. -/
def get_departments : List String :=
  ["Engineering", "Design", "Marketing", "Sales", "Customer Success",
   "Product", "HR", "Finance", "Support", "Operations"]

/-- The seeded draws consumed for one generated project.  `descr` stands
for the result of `_generate_description` (LLM text or static fallback);
`uuid` is the OS entropy behind `uuid.uuid4()`. -/
structure ProjectRand where
  nameDraw : Nat
  statusR : ℚ
  createdDraw : Nat
  startDraw : Nat
  endDraw : Nat
  chrono1 : Nat
  chrono2 : Nat
  uuid : String
  descr : String
deriving Repr, DecidableEq, Inhabited

/-- `team.get("department") or random.choice(get_departments())`: an
absent/empty department falls back to a random catalog entry. -/
def resolveDepartment (team : Team) (deptDraw : Nat) : String :=
  if team.department = "" then get_departments.getD (deptDraw % get_departments.length) ""
  else team.department

/-- The body of the per-project loop of `generate_projects`: the project
name is a `random.choice` from the static pool, the status a weighted
draw, `end_date` is set only for a status in `{"Completed", "Active"}`,
and the `(created_at, end_date)` pair runs through `ensure_chronology`
(as `(created_at, due_date)`, with no completed date). -/
def mkProject (team : Team) (department : String) (pr : ProjectRand) : Project :=
  let project_name := PROJECT_NAMES.getD (pr.nameDraw % PROJECT_NAMES.length) ""
  let status := weighted_choiceD PROJECT_STATUS_WEIGHTS pr.statusR
  let created_at := random_date date_2021_01_01 date_2025_01_01 pr.createdDraw
  let start_date := random_date created_at date_2025_06_30 pr.startDraw
  let end_date : Option Int :=
    if status = "Completed" ∨ status = "Active" then
      some (random_date start_date date_2025_12_31 pr.endDraw)
    else none
  let dates := ensure_chronology created_at end_date none pr.chrono1 pr.chrono2
  { project_id := generate_uuid (some "proj") pr.uuid
    team_id := team.team_id
    department := department
    name := project_name
    description := pr.descr
    status := status
    start_date := start_date
    end_date := dates.due_date
    created_at := created_at }

/-- The per-team loop of `generate_projects`: each team gets
`random.randint(3, 12)` projects (value supplied through `fanDraw`),
generated in order.  Oracles are indexed by team position and by project
position within the team. -/
def generate_projects_loop (deptDraw fanDraw : Nat → Nat)
    (rand : Nat → Nat → ProjectRand) : List Team → Nat → List Project
  | [], _ => []
  | team :: rest, i =>
    (List.range (pyRandint 3 12 (fanDraw i)).toNat).map
        (fun j => mkProject team (resolveDepartment team (deptDraw i)) (rand i j)) ++
      generate_projects_loop deptDraw fanDraw rand rest (i + 1)

/-- Shallow embedding of `generate_projects(teams, company_name)` from
`src/generators/projects.py` (`company_name` is unused by the source
body). -/
def generate_projects (teams : List Team) (deptDraw fanDraw : Nat → Nat)
    (rand : Nat → Nat → ProjectRand) : Except String (List Project) :=
  if teams.isEmpty then .error "Teams list cannot be empty"
  else .ok (generate_projects_loop deptDraw fanDraw rand teams 0)

/-! ## `src/generators/sections.py` -/

/-- A section record, mirroring the dictionary built in
`generate_sections`. -/
structure Section where
  section_id : String
  project_id : String
  name : String
  position : Nat
  created_at : Option Int
deriving Repr, DecidableEq, Inhabited

/-- `_DEFAULT_SECTIONS`. -/
def DEFAULT_SECTIONS : List String :=
  ["Backlog", "To Do", "In Progress", "In Review", "Done"]

/-- `_ENGINEERING_SECTIONS`. -/
def ENGINEERING_SECTIONS : List String :=
  ["Backlog", "Sprint", "In Progress", "Testing", "Review", "Released"]

/-- `_MARKETING_DESIGN_SECTIONS`. -/
def MARKETING_DESIGN_SECTIONS : List String :=
  ["Planning", "Design", "In Progress", "Review", "Published"]

/-- `_choose_section_template(department)`. -/
def choose_section_template (department : String) : List String :=
  if department = "Engineering" ∨ department = "Product" then ENGINEERING_SECTIONS
  else if department = "Marketing" ∨ department = "Design" then MARKETING_DESIGN_SECTIONS
  else DEFAULT_SECTIONS

/-- The department-conditioned `num_sections` draw of
`generate_sections`: `randint(5, 6)`, `randint(4, 5)` or `randint(3, 5)`. -/
def sectionCount (department : String) (draw : Nat) : Nat :=
  if department = "Engineering" ∨ department = "Product" then (pyRandint 5 6 draw).toNat
  else if department = "Marketing" ∨ department = "Design" then (pyRandint 4 5 draw).toNat
  else (pyRandint 3 5 draw).toNat

/-- The `for idx, name in enumerate(chosen_sections, start=1)` loop of
`generate_sections`.  The source assigns a local `created_at` four times
before this loop; all of those assignments are dead — the emitted
dictionary recomputes its own `created_at` as
`random_date(project_created, project_created)` (both bounds equal), and
a generated project always carries a creation date, so only that branch
is live. -/
def sectionRows (p : Project) (uuid : Nat → String) (dd : Nat → Nat) :
    List String → Nat → List Section
  | [], _ => []
  | name :: rest, idx =>
    { section_id := generate_uuid (some "sec") (uuid idx)
      project_id := p.project_id
      name := name
      position := idx
      created_at := some (random_date p.created_at p.created_at (dd idx)) } ::
      sectionRows p uuid dd rest (idx + 1)

/-- The per-project body of `generate_sections`: a prefix of the
department template, enumerated from position 1. -/
def sectionsFor (p : Project) (numDraw : Nat) (uuid : Nat → String)
    (dd : Nat → Nat) : List Section :=
  sectionRows p uuid dd
    ((choose_section_template p.department).take (sectionCount p.department numDraw)) 1

/-- The per-project loop of `generate_sections`, oracles indexed by
project position. -/
def generate_sections_loop (numDraw : Nat → Nat) (uuid : Nat → Nat → String)
    (dd : Nat → Nat → Nat) : List Project → Nat → List Section
  | [], _ => []
  | p :: rest, i =>
    sectionsFor p (numDraw i) (uuid i) (dd i) ++
      generate_sections_loop numDraw uuid dd rest (i + 1)

/-- Shallow embedding of `generate_sections(projects)` from
`src/generators/sections.py`. -/
def generate_sections (projects : List Project) (numDraw : Nat → Nat)
    (uuid : Nat → Nat → String) (dd : Nat → Nat → Nat) : List Section :=
  if projects.isEmpty then []
  else generate_sections_loop numDraw uuid dd projects 0

/-! ## `src/generators/tasks.py` -/

/-- A task record, mirroring the dictionary built in `generate_tasks`. -/
structure Task where
  task_id : String
  project_id : String
  assignee_id : Option String
  name : String
  description : String
  priority : String
  status : String
  completed : Bool
  created_at : Int
  due_date : Option Int
  completed_at : Option Int
deriving Repr, DecidableEq, Inhabited

/-- `_STATUS_WEIGHTS` from `src/generators/tasks.py`. -/
def TASK_STATUS_WEIGHTS : List (String × Int) :=
  [("To Do", 25), ("In Progress", 35), ("In Review", 20), ("Done", 20)]

/-- `_PRIORITY_WEIGHTS` from `src/generators/tasks.py`. -/
def TASK_PRIORITY_WEIGHTS : List (String × Int) :=
  [("Low", 20), ("Medium", 40), ("High", 30), ("Critical", 10)]

/-- The draws and external results consumed for one generated task:
`name` stands for `_generate_task_name(prompts)` (prompt file plus
seeded choices), `description` for `_generate_description` (LLM text or
fallback), `uuid` for the OS entropy behind `uuid.uuid4()`; the other
fields are seeded stream draws. -/
structure TaskRand where
  name : String
  statusR : ℚ
  priorityR : ℚ
  createdDraw : Nat
  dueDraw : Nat
  completedDraw : Nat
  chrono1 : Nat
  chrono2 : Nat
  assigneeGate : Bool
  assigneeDraw : Nat
  uuid : String
  description : String
deriving Repr, DecidableEq, Inhabited

/-- The body of the per-task loop of `generate_tasks`: weighted status
and priority, `created_at` in 2021-01-01..2025-01-01, `due_date` in
`created_at`..2025-12-31, `completed = (status == "Done")` with a
completion date drawn only in that case, the date triple run through
`ensure_chronology`, and an assignee for a non-empty user list passing
the `random_bool(0.8)` gate. -/
def mkTask (project : Project) (users : List User) (tr : TaskRand) : Task :=
  let task_name := tr.name
  let status := weighted_choiceD TASK_STATUS_WEIGHTS tr.statusR
  let priority := weighted_choiceD TASK_PRIORITY_WEIGHTS tr.priorityR
  let created_at := random_date date_2021_01_01 date_2025_01_01 tr.createdDraw
  let due_date := random_date created_at date_2025_12_31 tr.dueDraw
  let completed := status == "Done"
  let completed_at : Option Int :=
    if completed then some (random_date due_date date_2025_12_31 tr.completedDraw)
    else none
  let dates := ensure_chronology created_at (some due_date) completed_at tr.chrono1 tr.chrono2
  let assignee_id : Option String :=
    if users.isEmpty = false ∧ tr.assigneeGate then
      some ((users.getD (tr.assigneeDraw % users.length) default).user_id)
    else none
  { task_id := generate_uuid (some "task") tr.uuid
    project_id := project.project_id
    assignee_id := assignee_id
    name := task_name
    description := tr.description
    priority := priority
    status := status
    completed := completed
    created_at := dates.created_at
    due_date := dates.due_date
    completed_at := dates.completed_at }

/-- The inner `for _ in range(num_tasks)` loop of `generate_tasks`:
before each task the running total is checked against
`total_task_limit`, and reaching it returns from the whole function
(the Boolean in the result records that early return).  Per-task draws
are indexed by the running total. -/
def taskLoop (limit : Nat) (project : Project) (users : List User)
    (rand : Nat → TaskRand) : Nat → List Task → List Task × Bool
  | 0, acc => (acc, false)
  | n + 1, acc =>
    if acc.length ≥ limit then (acc, true)
    else taskLoop limit project users rand n (acc ++ [mkTask project users (rand acc.length)])

/-- `base_tasks_per_project = max(1, total_task_limit // max(1,
len(projects)))` from `generate_tasks`. -/
def base_tasks_per_project (total_task_limit num_projects : Nat) : Nat :=
  max 1 (total_task_limit / max 1 num_projects)

/-- Lower bound of the `num_tasks` draw:
`max(20, base_tasks_per_project // 2)`. -/
def taskFanoutLo (total_task_limit num_projects : Nat) : Nat :=
  max 20 (base_tasks_per_project total_task_limit num_projects / 2)

/-- Upper bound of the `num_tasks` draw:
`min(150, base_tasks_per_project * 2)`. -/
def taskFanoutHi (total_task_limit num_projects : Nat) : Nat :=
  min 150 (base_tasks_per_project total_task_limit num_projects * 2)

/-- The value of the `num_tasks = random.randint(taskFanoutLo,
taskFanoutHi)` draw when that range is non-empty, `d` being the raw
stream value. -/
def drawnNumTasks (total_task_limit num_projects d : Nat) : Nat :=
  taskFanoutLo total_task_limit num_projects +
    d % (taskFanoutHi total_task_limit num_projects -
      taskFanoutLo total_task_limit num_projects + 1)

/-- The outer `for project in projects` loop of `generate_tasks`; an
early return from the inner loop skips all remaining projects.  At the
top of each iteration the source draws
`num_tasks = random.randint(max(20, base_tasks_per_project // 2),
min(150, base_tasks_per_project * 2))`; when that range is empty (which
happens exactly when `base_tasks_per_project` is outside `[10, 301]`)
`random.randint` raises `ValueError`, modelled by the `.error` branch.
`fanDraw i` is the raw stream value behind the `i`-th project's draw. -/
def projectLoop (limit num_projects : Nat) (users : List User)
    (rand : Nat → TaskRand) (fanDraw : Nat → Nat) :
    List Project → Nat → List Task → Except String (List Task)
  | [], _, acc => .ok acc
  | p :: ps, i, acc =>
    if taskFanoutLo limit num_projects > taskFanoutHi limit num_projects then
      .error "empty range for randrange()"
    else
      let num_tasks := drawnNumTasks limit num_projects (fanDraw i)
      let result := taskLoop limit p users rand num_tasks acc
      if result.2 then .ok result.1
      else projectLoop limit num_projects users rand fanDraw ps (i + 1) result.1

/-- Shallow embedding of `generate_tasks(projects, users,
total_task_limit)` from `src/generators/tasks.py`. -/
def generate_tasks (projects : List Project) (users : List User)
    (total_task_limit : Nat) (fanDraw : Nat → Nat) (rand : Nat → TaskRand) :
    Except String (List Task) :=
  if projects.isEmpty then .error "Projects list cannot be empty"
  else projectLoop total_task_limit projects.length users rand fanDraw projects 0 []

/-- Sum of the natural per-project fan-outs `fanout i, fanout (i+1), ...`
over `n` consecutive projects. -/
def natFanoutSum (fanout : Nat → Nat) : Nat → Nat → Nat
  | _, 0 => 0
  | i, n + 1 => fanout i + natFanoutSum fanout (i + 1) n

/-! ## `src/generators/subtasks.py` -/

/-- A subtask record, mirroring the dictionary built in
`generate_subtasks`. -/
structure Subtask where
  subtask_id : String
  parent_task_id : String
  assignee_id : Option String
  name : String
  description : String
  status : String
  completed : Bool
  created_at : Int
  due_date : Option Int
  completed_at : Option Int
deriving Repr, DecidableEq, Inhabited

/-- `_STATUS_WEIGHTS` from `src/generators/subtasks.py`. -/
def SUBTASK_STATUS_WEIGHTS : List (String × Int) :=
  [("To Do", 35), ("In Progress", 30), ("Done", 35)]

/-- `_FALLBACK_SUBTASK_NAMES` from `src/generators/subtasks.py`. -/
def FALLBACK_SUBTASK_NAMES : List String :=
  ["Write unit tests", "Review PR changes", "Document feature behavior",
   "Deploy to staging", "Conduct code review", "Fix bug reports",
   "Prepare release notes", "Sync with QA", "Validate integration"]

/-- The draws and external results consumed for one generated subtask
(fields as in `TaskRand`; `nameDraw` selects the fallback name). -/
structure SubtaskRand where
  statusR : ℚ
  createdDraw : Nat
  dueDraw : Nat
  completedDraw : Nat
  chrono1 : Nat
  chrono2 : Nat
  assigneeGate : Bool
  assigneeDraw : Nat
  nameDraw : Nat
  uuid : String
  description : String
deriving Repr, DecidableEq, Inhabited

/-- The body of the per-subtask loop of `generate_subtasks`: status is
forced to `"Done"` under a done parent and drawn otherwise,
`completed = (status == "Done")` with a completion date drawn only in
that case, and the date triple runs through `ensure_chronology`. -/
def mkSubtask (parent : Task) (parent_due : Int) (users : List User)
    (sr : SubtaskRand) : Subtask :=
  let subtask_status :=
    if parent.status == "Done" then "Done"
    else weighted_choiceD SUBTASK_STATUS_WEIGHTS sr.statusR
  let created_at := random_date parent.created_at parent_due sr.createdDraw
  let due_date := random_date created_at parent_due sr.dueDraw
  let completed := subtask_status == "Done"
  let completed_at : Option Int :=
    if completed then some (random_date created_at due_date sr.completedDraw)
    else none
  let dates := ensure_chronology created_at (some due_date) completed_at sr.chrono1 sr.chrono2
  let assignee_id : Option String :=
    if users.isEmpty = false ∧ sr.assigneeGate then
      some ((users.getD (sr.assigneeDraw % users.length) default).user_id)
    else none
  let name := FALLBACK_SUBTASK_NAMES.getD (sr.nameDraw % FALLBACK_SUBTASK_NAMES.length) ""
  { subtask_id := generate_uuid (some "sub") sr.uuid
    parent_task_id := parent.task_id
    assignee_id := assignee_id
    name := name
    description := sr.description
    status := subtask_status
    completed := completed
    created_at := dates.created_at
    due_date := dates.due_date
    completed_at := dates.completed_at }

/-- The Bernoulli gate `[task for task in tasks if random_bool(0.5)]`
selecting which tasks receive subtasks, gate draws indexed by task
position. -/
def gateFilter (gate : Nat → Bool) : List Task → Nat → List Task
  | [], _ => []
  | t :: rest, i =>
    if gate i then t :: gateFilter gate rest (i + 1)
    else gateFilter gate rest (i + 1)

/-- The per-parent loop of `generate_subtasks`: a parent without a due
date is skipped (`continue`; a generated task record always has a
creation date, so only the due-date test is live), a done parent caps
the fan-out draw at `randint(1, 2)`, others at `randint(1, 5)`. -/
def subtaskParentLoop (users : List User) (fanDraw : Nat → Nat)
    (rand : Nat → Nat → SubtaskRand) : List Task → Nat → List Subtask
  | [], _ => []
  | parent :: rest, i =>
    match parent.due_date with
    | none => subtaskParentLoop users fanDraw rand rest (i + 1)
    | some parent_due =>
      let max_subtasks : Int := if parent.status == "Done" then 2 else 5
      let num_subtasks := (pyRandint 1 max_subtasks (fanDraw i)).toNat
      (List.range num_subtasks).map (fun j => mkSubtask parent parent_due users (rand i j)) ++
        subtaskParentLoop users fanDraw rand rest (i + 1)

/-- Shallow embedding of `generate_subtasks(tasks, users)` from
`src/generators/subtasks.py`. -/
def generate_subtasks (tasks : List Task) (users : List User)
    (gate : Nat → Bool) (fanDraw : Nat → Nat)
    (rand : Nat → Nat → SubtaskRand) : List Subtask :=
  if tasks.isEmpty then []
  else subtaskParentLoop users fanDraw rand (gateFilter gate tasks 0) 0

/-! ## Concrete sample inputs (used by counterexamples and witnesses) -/

/-- A concrete team record. -/
def sampleTeam : Team :=
  { team_id := "t1", org_id := "o", name := "T",
    department := "Engineering", description := "d", created_at := 0 }

/-- A concrete project record. -/
def sampleProject : Project :=
  { project_id := "proj_x", team_id := "t1", department := "Engineering",
    name := "P", description := "d", status := "Active",
    start_date := 18628, end_date := none, created_at := 18628 }

/-- A concrete draw bundle for one project, selecting the first weighted
label. -/
def sampleProjectRand : ProjectRand :=
  { nameDraw := 0, statusR := 0, createdDraw := 0, startDraw := 0, endDraw := 0,
    chrono1 := 0, chrono2 := 0, uuid := "u", descr := "d" }

/-- A concrete draw bundle for one task. -/
def sampleTaskRand : TaskRand :=
  { name := "Do the thing", statusR := 0, priorityR := 0, createdDraw := 0,
    dueDraw := 0, completedDraw := 0, chrono1 := 0, chrono2 := 0,
    assigneeGate := false, assigneeDraw := 0, uuid := "u", description := "d" }

/-- A concrete parent task record (with a due date, so it is eligible
for subtasks). -/
def sampleParentTask : Task :=
  { task_id := "task_x", project_id := "proj_x", assignee_id := none,
    name := "n", description := "d", priority := "Low", status := "Done",
    completed := true, created_at := 0, due_date := some 5, completed_at := some 6 }

/-- A concrete draw bundle for one subtask. -/
def sampleSubtaskRand : SubtaskRand :=
  { statusR := 0, createdDraw := 0, dueDraw := 0, completedDraw := 0,
    chrono1 := 0, chrono2 := 0, assigneeGate := false, assigneeDraw := 0,
    nameDraw := 0, uuid := "u", description := "d" }

end Asana

namespace Asana

/-! ## Theorems -/

theorem pyRandint_mem (lo hi : Int) (draw : Nat) (h : lo ≤ hi) :
    lo ≤ pyRandint lo hi draw ∧ pyRandint lo hi draw ≤ hi := by
  unfold pyRandint
  have hlt : draw % (hi - lo + 1).toNat < (hi - lo + 1).toNat :=
    Nat.mod_lt draw (by omega)
  omega

theorem pyRandint_one_seven_bounds (draw : Nat) :
    1 ≤ pyRandint 1 7 draw ∧ pyRandint 1 7 draw ≤ 7 :=
  pyRandint_mem 1 7 draw (by norm_num)

theorem bisect_right_bounds (a : List ℚ) (x : ℚ) :
    ∀ fuel lo hi, hi - lo ≤ fuel → lo ≤ hi →
      lo ≤ bisect_right a x lo hi ∧ bisect_right a x lo hi ≤ hi := by
  intro fuel
  induction fuel with
  | zero =>
    intro lo hi hf hlo
    rw [bisect_right]
    have h : ¬ lo < hi := by omega
    simp only [dif_neg h]
    omega
  | succ n ih =>
    intro lo hi hf hlo
    rw [bisect_right]
    by_cases h : lo < hi
    · simp only [dif_pos h]
      by_cases hx : x < a.getD ((lo + hi) / 2) 0
      · simp only [if_pos hx]
        have h2 : lo ≤ (lo + hi) / 2 := by omega
        have := ih lo ((lo + hi) / 2) (by omega) h2
        omega
      · simp only [if_neg hx]
        have h1 : (lo + hi) / 2 < hi := by omega
        have := ih ((lo + hi) / 2 + 1) hi (by omega) (by omega)
        omega
    · simp only [dif_neg h]
      omega

theorem cumsum_getLastD (ws : List Int) :
    ∀ acc, (cumsum acc ws).getLastD acc = acc + ws.sum := by
  induction ws with
  | nil => intro acc; simp [cumsum]
  | cons w ws ih =>
    intro acc
    rw [cumsum, List.getLastD_cons, ih (acc + w), List.sum_cons]
    omega

/-- C7 (counterexample): a mapping that contains a non-positive weight
does not make `weighted_choice` fail — with weights `{a: 1, b: 0}` it
returns the label `a` instead of raising. -/
theorem weighted_choice_nonpositive_weight_no_error :
    weighted_choice [("a", 1), ("b", 0)] (1/2) = Except.ok "a" ∧
      ("b", (0 : Int)) ∈ [("a", (1 : Int)), ("b", 0)] ∧ (0 : Int) ≤ 0 := by
  refine ⟨?_, by simp, le_refl 0⟩
  rw [weighted_choice]
  norm_num [python_choices_one, cumsum, List.getLastD]
  rw [bisect_right]
  norm_num
  rw [bisect_right]
  norm_num

/-- C7 (amended): `weighted_choice` fails exactly when the mapping is
empty or the *sum* of its weights is non-positive; whenever it succeeds
it returns one of the mapping's labels.  In particular a mapping whose
weights are all positive never makes it fail. -/
theorem weighted_choice_spec (choices : List (String × Int)) (r : ℚ) :
    ((∃ msg, weighted_choice choices r = .error msg) ↔
      (choices = [] ∨ (choices.map Prod.snd).sum ≤ 0)) ∧
    (∀ lbl, weighted_choice choices r = .ok lbl → lbl ∈ choices.map Prod.fst) := by
  rcases choices with _ | ⟨p, rest⟩
  · simp [weighted_choice]
  · rw [weighted_choice]
    simp only [List.isEmpty_cons, if_neg (by simp : ¬ (false = true))]
    rw [python_choices_one]
    have hsum : ((p :: rest).map Prod.snd).sum =
        (cumsum 0 ((p :: rest).map Prod.snd)).getLastD 0 := by
      rw [cumsum_getLastD]
      omega
    by_cases ht : (((cumsum 0 ((p :: rest).map Prod.snd)).getLastD 0 : Int) : ℚ) ≤ 0
    · simp only [if_pos ht]
      have : ((p :: rest).map Prod.snd).sum ≤ 0 := by
        rw [hsum]
        exact_mod_cast ht
      constructor
      · constructor
        · intro _
          right
          exact this
        · intro _
          exact ⟨_, rfl⟩
      · intro lbl hlbl
        simp at hlbl
    · simp only [if_neg ht]
      constructor
      · constructor
        · rintro ⟨msg, hmsg⟩
          simp at hmsg
        · rintro (h | h)
          · simp at h
          · exfalso
            rw [hsum] at h
            exact ht (by exact_mod_cast h)
      · intro lbl hlbl
        simp only [Except.ok.injEq] at hlbl
        subst hlbl
        set idx := bisect_right
          ((cumsum 0 ((p :: rest).map Prod.snd)).map fun w => ((w : Int) : ℚ))
          (r * (((cumsum 0 ((p :: rest).map Prod.snd)).getLastD 0 : Int) : ℚ)) 0
          (((p :: rest).map Prod.fst).length - 1) with hidx
        have hb := bisect_right_bounds
          ((cumsum 0 ((p :: rest).map Prod.snd)).map fun w => ((w : Int) : ℚ))
          (r * (((cumsum 0 ((p :: rest).map Prod.snd)).getLastD 0 : Int) : ℚ))
          (((p :: rest).map Prod.fst).length - 1) 0
          (((p :: rest).map Prod.fst).length - 1) (by omega) (by omega)
        have hlen : idx < ((p :: rest).map Prod.fst).length := by
          rw [hidx]
          simp only [List.length_map, List.length_cons] at hb ⊢
          omega
        rw [List.getD_eq_getElem _ _ hlen]
        exact List.getElem_mem hlen

/-- Witness for `weighted_choice_spec`: at the concrete singleton mapping
`{x: 2}` and draw `1/2` the sampler succeeds and returns the label `x`. -/
theorem weighted_choice_spec_witness :
    "x" ∈ ([("x", (2 : Int))].map Prod.fst) := by
  refine (weighted_choice_spec [("x", 2)] (1/2)).2 "x" ?_
  rw [weighted_choice]
  norm_num [python_choices_one, cumsum, List.getLastD]
  rw [bisect_right]
  norm_num

theorem toDecimalDigits_eq_digits :
    ∀ fuel n, n ≤ fuel → toDecimalDigits fuel n = Nat.digits 10 n := by
  intro fuel
  induction fuel with
  | zero =>
    intro n hn
    obtain rfl : n = 0 := by omega
    simp [toDecimalDigits]
  | succ f ih =>
    intro n hn
    rw [toDecimalDigits]
    by_cases h0 : n = 0
    · simp [h0]
    · have hlt : n / 10 < n := Nat.div_lt_self (Nat.pos_of_ne_zero h0) (by norm_num)
      have hdiv : n / 10 ≤ f := by omega
      rw [if_neg h0, ih (n / 10) hdiv]
      conv_rhs => rw [Nat.digits_def' (by norm_num : (1:ℕ) < 10) (Nat.pos_of_ne_zero h0)]

theorem digitChar_injOn {a b : Nat} (ha : a < 10) (hb : b < 10)
    (h : Nat.digitChar a = Nat.digitChar b) : a = b := by
  have key : ∀ x y : Fin 10, Nat.digitChar x.val = Nat.digitChar y.val → x = y := by decide
  exact congrArg Fin.val (key ⟨a, ha⟩ ⟨b, hb⟩ h)

theorem map_digitChar_cancel :
    ∀ l1 l2 : List Nat, (∀ x ∈ l1, x < 10) → (∀ x ∈ l2, x < 10) →
      l1.map Nat.digitChar = l2.map Nat.digitChar → l1 = l2
  | [], [] => by simp
  | [], _ :: _ => by simp
  | _ :: _, [] => by simp
  | a :: l1, b :: l2 => by
    intro h1 h2 h
    simp only [List.map_cons, List.cons.injEq] at h
    have hab : a = b := digitChar_injOn (h1 a (by simp)) (h2 b (by simp)) h.1
    have htl := map_digitChar_cancel l1 l2 (fun x hx => h1 x (by simp [hx]))
      (fun x hx => h2 x (by simp [hx])) h.2
    simp [hab, htl]

theorem pyStr_inj {m n : Nat} (hm : m ≠ 0) (hn : n ≠ 0) (h : pyStr m = pyStr n) :
    m = n := by
  rw [pyStr, pyStr, if_neg hm, if_neg hn,
    toDecimalDigits_eq_digits m m (le_refl m),
    toDecimalDigits_eq_digits n n (le_refl n)] at h
  have hdata := congrArg String.data h
  simp only [List.asString] at hdata
  have hrev := map_digitChar_cancel _ _
    (fun x hx => Nat.digits_lt_base (by norm_num) (List.mem_reverse.mp hx))
    (fun x hx => Nat.digits_lt_base (by norm_num) (List.mem_reverse.mp hx)) hdata
  have hdig : Nat.digits 10 m = Nat.digits 10 n := List.reverse_injective hrev
  exact Nat.digits.injective 10 hdig

theorem dedupeCand_inj (base domain : String) {m n : Nat} (hm : m ≠ 0) (hn : n ≠ 0)
    (h : dedupeCand base domain m = dedupeCand base domain n) : m = n := by
  unfold dedupeCand at h
  have hdata := congrArg String.data h
  simp only [String.data_append, List.append_assoc] at hdata
  have h1 := List.append_cancel_left hdata
  have h2 := List.append_cancel_left h1
  have h3 := List.append_cancel_right h2
  exact pyStr_inj hm hn (String.ext h3)

theorem dedupeCand_exists_fresh (base domain : String) (seen : Finset String) :
    ∃ j, j ≤ seen.card ∧ dedupeCand base domain (2 + j) ∉ seen := by
  by_contra hcon
  push_neg at hcon
  have hmaps : ∀ j ∈ Finset.range (seen.card + 1), dedupeCand base domain (2 + j) ∈ seen := by
    intro j hj
    exact hcon j (by simpa [Nat.lt_succ_iff] using hj)
  have hinj : Set.InjOn (fun j => dedupeCand base domain (2 + j))
      (Finset.range (seen.card + 1)) := by
    intro a _ b _ hab
    have := dedupeCand_inj base domain (m := 2 + a) (n := 2 + b) (by omega) (by omega) hab
    omega
  have hcard := Finset.card_le_card_of_injOn _ hmaps hinj
  simp only [Finset.card_range] at hcard
  omega

theorem uniqueEmailLoop_fresh (base domain : String) (seen : Finset String) :
    ∀ fuel counter, (∃ j, j ≤ fuel ∧ dedupeCand base domain (counter + j) ∉ seen) →
      uniqueEmailLoop base domain seen fuel counter ∉ seen := by
  intro fuel
  induction fuel with
  | zero =>
    intro counter h
    obtain ⟨j, hj, hfree⟩ := h
    obtain rfl : j = 0 := by omega
    simpa [uniqueEmailLoop] using hfree
  | succ f ih =>
    intro counter h
    rw [uniqueEmailLoop]
    by_cases hc : dedupeCand base domain counter ∈ seen
    · rw [if_pos hc]
      apply ih
      obtain ⟨j, hj, hfree⟩ := h
      have hj0 : j ≠ 0 := by
        rintro rfl
        simp only [Nat.add_zero] at hfree
        exact hfree hc
      refine ⟨j - 1, by omega, ?_⟩
      have harith : counter + 1 + (j - 1) = counter + j := by omega
      rw [harith]
      exact hfree
    · rw [if_neg hc]
      exact hc

theorem uniqueEmailLoop_shape (base domain : String) (seen : Finset String) :
    ∀ fuel counter, ∃ k, counter ≤ k ∧
      uniqueEmailLoop base domain seen fuel counter = dedupeCand base domain k := by
  intro fuel
  induction fuel with
  | zero => intro counter; exact ⟨counter, le_refl _, rfl⟩
  | succ f ih =>
    intro counter
    rw [uniqueEmailLoop]
    by_cases hc : dedupeCand base domain counter ∈ seen
    · rw [if_pos hc]
      obtain ⟨k, hk, heq⟩ := ih (counter + 1)
      exact ⟨k, by omega, heq⟩
    · rw [if_neg hc]
      exact ⟨counter, le_refl _, rfl⟩

theorem uniqueEmail_not_mem (email : String) (seen : Finset String) :
    uniqueEmail email seen ∉ seen := by
  unfold uniqueEmail
  by_cases h : email ∈ seen
  · rw [if_pos h]
    apply uniqueEmailLoop_fresh
    obtain ⟨j, hj, hfree⟩ := dedupeCand_exists_fresh (localPart email) (domainPart email) seen
    exact ⟨j, by omega, hfree⟩
  · rw [if_neg h]
    exact h

theorem userLoop_invariant (team : Team) (profiles : Nat → Profile)
    (activeGate : Nat → Bool) (joinDraw : Nat → Nat) (uuidE : Nat → String) :
    ∀ n users seen, (List.map User.email users).Nodup →
      (∀ u ∈ users, u.email ∈ seen) →
      ((userLoop team profiles activeGate joinDraw uuidE n (users, seen)).1.map User.email).Nodup ∧
      ∀ u ∈ (userLoop team profiles activeGate joinDraw uuidE n (users, seen)).1,
        u.email ∈ (userLoop team profiles activeGate joinDraw uuidE n (users, seen)).2 := by
  intro n
  induction n with
  | zero =>
    intro users seen h1 h2
    exact ⟨h1, h2⟩
  | succ m ih =>
    intro users seen h1 h2
    rw [userLoop]
    apply ih
    · have hfresh := uniqueEmail_not_mem (profiles users.length).email seen
      simp only [List.map_append, List.map_cons, List.map_nil]
      rw [List.nodup_append]
      refine ⟨h1, List.nodup_singleton _, ?_⟩
      intro x hx
      simp only [List.mem_singleton]
      intro hxe
      obtain ⟨u, hu, rfl⟩ := List.mem_map.mp hx
      exact hfresh (hxe ▸ h2 u hu)
    · intro u hu
      rcases List.mem_append.mp hu with hold | hnew
      · exact Finset.mem_insert_of_mem (h2 u hold)
      · simp only [List.mem_singleton] at hnew
        subst hnew
        exact Finset.mem_insert_self _ _

theorem teamLoop_invariant (profiles : Nat → Profile) (activeGate : Nat → Bool)
    (joinDraw : Nat → Nat) (uuidE : Nat → String) (total_users num_teams : Nat)
    (variation : Nat → Int) :
    ∀ teams idx users seen, (List.map User.email users).Nodup →
      (∀ u ∈ users, u.email ∈ seen) →
      ((teamLoop profiles activeGate joinDraw uuidE total_users num_teams variation
          teams idx (users, seen)).1.map User.email).Nodup := by
  intro teams
  induction teams with
  | nil =>
    intro idx users seen h1 _
    exact h1
  | cons team rest ih =>
    intro idx users seen h1 h2
    rw [teamLoop]
    have hstep := userLoop_invariant team profiles activeGate joinDraw uuidE
      ((max 1 ((((total_users / num_teams +
        (if idx < total_users % num_teams then 1 else 0)) : Nat) : Int) + variation idx)).toNat)
      users seen h1 h2
    exact ih (idx + 1) _ _ hstep.1 hstep.2

/-- C4: the email-deduplication of `generate_users` is sound: the
resolved email is never one already in the seen set; when the provider's
candidate collides, the result is the candidate's local part with a
numeric counter `k ≥ 2` inserted before the `@`; and the emails of the
user list returned by `generate_users` are pairwise distinct (for any
profile oracle and any permutation implementing `random.shuffle`). -/
theorem generate_users_emails_distinct :
    (∀ email seen, uniqueEmail email seen ∉ seen) ∧
    (∀ email (seen : Finset String), email ∈ seen → ∃ k, 2 ≤ k ∧
        uniqueEmail email seen =
          localPart email ++ "+" ++ pyStr k ++ "@" ++ domainPart email) ∧
    (∀ teams total_users profiles variation activeGate joinDraw uuidE shuffle us,
        (∀ l : List User, (shuffle l).Perm l) →
        generate_users teams total_users profiles variation activeGate joinDraw
          uuidE shuffle = .ok us →
        (us.map User.email).Nodup) := by
  refine ⟨uniqueEmail_not_mem, ?_, ?_⟩
  · intro email seen hmem
    rw [uniqueEmail, if_pos hmem]
    obtain ⟨k, hk, heq⟩ := uniqueEmailLoop_shape (localPart email) (domainPart email)
      seen (seen.card + 1) 2
    exact ⟨k, hk, heq⟩
  · intro teams total_users profiles variation activeGate joinDraw uuidE shuffle us hsh hok
    rw [generate_users] at hok
    by_cases hempty : teams.isEmpty
    · rw [if_pos hempty] at hok
      exact absurd hok (by simp)
    · rw [if_neg hempty] at hok
      simp only [Except.ok.injEq] at hok
      subst hok
      have hbase := teamLoop_invariant profiles activeGate joinDraw uuidE total_users
        teams.length variation teams 0 [] ∅ (by simp) (by simp)
      have hperm := (hsh (teamLoop profiles activeGate joinDraw uuidE total_users
        teams.length variation teams 0 ([], ∅)).1).map User.email
      have hshuffled := hperm.symm.nodup hbase
      rw [List.map_take]
      exact hshuffled.sublist (List.take_sublist _ _)

/-- Witness for `generate_users_emails_distinct`: at a concrete one-team
input with a colliding provider email the returned emails are pairwise
distinct, and the dedupe helper avoids a concrete seen set. -/
theorem generate_users_emails_distinct_witness :
    uniqueEmail "a@b.io" (∅ : Finset String) ∉ (∅ : Finset String) ∧
    (((generate_users [⟨"t1", "o", "T", "Engineering", "d", 0⟩] 2
        (fun _ => ⟨"N", "n@x.io", "R"⟩) (fun _ => 0) (fun _ => true) (fun _ => 0)
        (fun _ => "u") id).toOption.getD []).map User.email).Nodup := by
  constructor
  · exact generate_users_emails_distinct.1 "a@b.io" ∅
  · exact generate_users_emails_distinct.2.2
      [⟨"t1", "o", "T", "Engineering", "d", 0⟩] 2
      (fun _ => ⟨"N", "n@x.io", "R"⟩) (fun _ => 0) (fun _ => true) (fun _ => 0)
      (fun _ => "u") id _ (fun l => List.Perm.refl l) (by rfl)

theorem ensure_chronology_completed_isSome (c : Int) (d comp : Option Int) (o1 o2 : Nat) :
    (ensure_chronology c d comp o1 o2).completed_at.isSome = comp.isSome := by
  rcases comp with _ | x <;> rcases d with _ | y <;>
    simp only [ensure_chronology, Option.getD] <;> split_ifs <;> simp

theorem ensure_chronology_due_isSome (c : Int) (d comp : Option Int) (o1 o2 : Nat) :
    (ensure_chronology c d comp o1 o2).due_date.isSome = d.isSome := by
  rcases comp with _ | x <;> rcases d with _ | y <;>
    simp only [ensure_chronology, Option.getD] <;> split_ifs <;> simp

theorem taskLoop_spec (limit : Nat) (project : Project) (users : List User)
    (rand : Nat → TaskRand) :
    ∀ n acc, acc.length ≤ limit →
      (taskLoop limit project users rand n acc).1.length = min (acc.length + n) limit ∧
      ((taskLoop limit project users rand n acc).2 = true ↔ limit < acc.length + n) := by
  intro n
  induction n with
  | zero =>
    intro acc h
    rw [taskLoop]
    refine ⟨by simp; omega, by simp; omega⟩
  | succ m ih =>
    intro acc h
    rw [taskLoop]
    by_cases hc : acc.length ≥ limit
    · rw [if_pos hc]
      refine ⟨by simp; omega, by simp; omega⟩
    · rw [if_neg hc]
      obtain ⟨h1, h2⟩ := ih (acc ++ [mkTask project users (rand acc.length)])
        (by simp; omega)
      refine ⟨?_, ?_⟩
      · rw [h1]
        simp only [List.length_append, List.length_cons, List.length_nil]
        omega
      · rw [h2]
        simp only [List.length_append, List.length_cons, List.length_nil]
        omega

theorem projectLoop_spec (limit num_projects : Nat) (users : List User)
    (rand : Nat → TaskRand) (fanDraw : Nat → Nat)
    (hr : taskFanoutLo limit num_projects ≤ taskFanoutHi limit num_projects) :
    ∀ ps i acc, acc.length ≤ limit →
      ∃ ts, projectLoop limit num_projects users rand fanDraw ps i acc = .ok ts ∧
        ts.length = min (acc.length +
          natFanoutSum (fun j => drawnNumTasks limit num_projects (fanDraw j)) i ps.length)
          limit := by
  intro ps
  induction ps with
  | nil =>
    intro i acc h
    refine ⟨acc, rfl, ?_⟩
    simp only [List.length_nil, natFanoutSum]
    omega
  | cons p ps ih =>
    intro i acc h
    obtain ⟨h1, h2⟩ := taskLoop_spec limit p users rand
      (drawnNumTasks limit num_projects (fanDraw i)) acc h
    simp only [projectLoop, if_neg (by omega : ¬ taskFanoutLo limit num_projects >
      taskFanoutHi limit num_projects)]
    by_cases hh : (taskLoop limit p users rand
        (drawnNumTasks limit num_projects (fanDraw i)) acc).2 = true
    · rw [if_pos hh]
      have hlt := h2.mp hh
      refine ⟨_, rfl, ?_⟩
      rw [h1]
      simp only [List.length_cons, natFanoutSum]
      omega
    · rw [if_neg hh]
      have hnlt : ¬ limit < acc.length + drawnNumTasks limit num_projects (fanDraw i) :=
        fun hx => hh (h2.mpr hx)
      have hle : (taskLoop limit p users rand
          (drawnNumTasks limit num_projects (fanDraw i)) acc).1.length ≤ limit := by
        rw [h1]; omega
      obtain ⟨ts, hts, hlen⟩ := ih (i + 1) _ hle
      refine ⟨ts, hts, ?_⟩
      rw [hlen, h1]
      simp only [List.length_cons, natFanoutSum]
      omega

theorem projectLoop_ok_range (limit num_projects : Nat) (users : List User)
    (rand : Nat → TaskRand) (fanDraw : Nat → Nat) (p : Project) (ps : List Project)
    (i : Nat) (acc ts : List Task)
    (hok : projectLoop limit num_projects users rand fanDraw (p :: ps) i acc = .ok ts) :
    taskFanoutLo limit num_projects ≤ taskFanoutHi limit num_projects := by
  rw [projectLoop] at hok
  by_cases hc : taskFanoutLo limit num_projects > taskFanoutHi limit num_projects
  · rw [if_pos hc] at hok
    exact absurd hok (by simp)
  · omega

/-- C2 (counterexample): at the concrete non-empty configuration of one
project and `total_task_limit = 2`, `generate_tasks` does not return a
task list at all: `base_tasks_per_project = 2`, so the source's
`num_tasks = random.randint(max(20, 1), min(150, 4))` call has an empty
range and raises `ValueError` — the claim's promise that generation
returns (at most `limit` tasks) fails for this configured limit. -/
theorem generate_tasks_empty_fanout_range_error :
    generate_tasks [sampleProject] [] 2 (fun _ => 0) (fun _ => sampleTaskRand) =
      .error "empty range for randrange()" := by rfl

/-- C2 (amended): whenever `generate_tasks` returns a task list, its
length is exactly `min (sum of the per-project fan-out draws)
total_task_limit` — never above the cap, equal to it exactly when the
natural fan-out would exceed it, strictly below it only when the natural
fan-out is insufficient.  It returns a list for every non-empty project
list whose `num_tasks` range is non-empty (equivalently,
`base_tasks_per_project ∈ [10, 301]`), and raises `ValueError` instead
of returning whenever that range is empty. -/
theorem generate_tasks_cap_amended :
    (∀ projects users total_task_limit fanDraw rand ts,
        generate_tasks projects users total_task_limit fanDraw rand = .ok ts →
        ts.length ≤ total_task_limit ∧
        ts.length = min
          (natFanoutSum (fun j => drawnNumTasks total_task_limit projects.length (fanDraw j))
            0 projects.length)
          total_task_limit) ∧
    (∀ projects users total_task_limit fanDraw rand,
        projects ≠ [] →
        taskFanoutLo total_task_limit projects.length ≤
          taskFanoutHi total_task_limit projects.length →
        ∃ ts, generate_tasks projects users total_task_limit fanDraw rand = .ok ts) ∧
    (∀ projects users total_task_limit fanDraw rand,
        projects ≠ [] →
        taskFanoutHi total_task_limit projects.length <
          taskFanoutLo total_task_limit projects.length →
        ∃ msg, generate_tasks projects users total_task_limit fanDraw rand = .error msg) := by
  refine ⟨?_, ?_, ?_⟩
  · intro projects users total_task_limit fanDraw rand ts hok
    rw [generate_tasks] at hok
    by_cases he : projects.isEmpty = true
    · rw [if_pos he] at hok
      exact absurd hok (by simp)
    · rw [if_neg he] at hok
      cases projects with
      | nil => simp at he
      | cons p ps =>
        have hr := projectLoop_ok_range total_task_limit (p :: ps).length users rand
          fanDraw p ps 0 [] ts hok
        obtain ⟨ts', hts', hlen⟩ := projectLoop_spec total_task_limit (p :: ps).length
          users rand fanDraw hr (p :: ps) 0 [] (by simp)
        rw [hok] at hts'
        simp only [Except.ok.injEq] at hts'
        subst hts'
        simp only [List.length_nil, Nat.zero_add] at hlen
        exact ⟨by omega, hlen⟩
  · intro projects users total_task_limit fanDraw rand h hrange
    have hne : ¬ (projects.isEmpty = true) := by
      cases projects with
      | nil => exact absurd rfl h
      | cons a l => simp
    obtain ⟨ts, hts, _⟩ := projectLoop_spec total_task_limit projects.length users rand
      fanDraw hrange projects 0 [] (by simp)
    exact ⟨ts, by rw [generate_tasks, if_neg hne]; exact hts⟩
  · intro projects users total_task_limit fanDraw rand h hrange
    have hne : ¬ (projects.isEmpty = true) := by
      cases projects with
      | nil => exact absurd rfl h
      | cons a l => simp
    cases projects with
    | nil => exact absurd rfl h
    | cons p ps =>
      refine ⟨"empty range for randrange()", ?_⟩
      rw [generate_tasks, if_neg hne, projectLoop,
        if_pos (by omega : taskFanoutLo total_task_limit (p :: ps).length >
          taskFanoutHi total_task_limit (p :: ps).length)]

/-- Witness for `generate_tasks_cap_amended`: a concrete valid
configuration (one project, limit 10, so the fan-out draw is exactly 20)
is capped at exactly `min 20 10 = 10` tasks. -/
theorem generate_tasks_cap_amended_witness :
    ((generate_tasks [sampleProject] [] 10 (fun _ => 0)
        (fun _ => sampleTaskRand)).toOption.getD []).length ≤ 10 ∧
    ((generate_tasks [sampleProject] [] 10 (fun _ => 0)
        (fun _ => sampleTaskRand)).toOption.getD []).length =
      min (natFanoutSum (fun _ => drawnNumTasks 10 [sampleProject].length 0)
        0 [sampleProject].length) 10 :=
  generate_tasks_cap_amended.1 [sampleProject] [] 10 (fun _ => 0)
    (fun _ => sampleTaskRand) _ (by rfl)

theorem mkTask_completed_eq (project : Project) (users : List User) (tr : TaskRand) :
    (mkTask project users tr).completed = (mkTask project users tr).completed_at.isSome := by
  simp only [mkTask, ensure_chronology_completed_isSome]
  cases hb : weighted_choiceD TASK_STATUS_WEIGHTS tr.statusR == "Done" <;> simp [hb]

theorem mkSubtask_completed_eq (parent : Task) (parent_due : Int) (users : List User)
    (sr : SubtaskRand) :
    (mkSubtask parent parent_due users sr).completed =
      (mkSubtask parent parent_due users sr).completed_at.isSome := by
  simp only [mkSubtask, ensure_chronology_completed_isSome]
  by_cases hp : parent.status == "Done"
  · simp [hp]
  · simp only [hp]
    cases hb : weighted_choiceD SUBTASK_STATUS_WEIGHTS sr.statusR == "Done" <;>
      simp [hp, hb]

theorem taskLoop_mem (limit : Nat) (project : Project) (users : List User)
    (rand : Nat → TaskRand) :
    ∀ n acc t, t ∈ (taskLoop limit project users rand n acc).1 →
      t ∈ acc ∨ ∃ tr, t = mkTask project users tr := by
  intro n
  induction n with
  | zero =>
    intro acc t ht
    rw [taskLoop] at ht
    exact Or.inl ht
  | succ m ih =>
    intro acc t ht
    rw [taskLoop] at ht
    by_cases hc : acc.length ≥ limit
    · rw [if_pos hc] at ht
      exact Or.inl ht
    · rw [if_neg hc] at ht
      rcases ih _ t ht with hin | hmk
      · rcases List.mem_append.mp hin with h1 | h2
        · exact Or.inl h1
        · simp only [List.mem_singleton] at h2
          exact Or.inr ⟨_, h2⟩
      · exact Or.inr hmk

theorem projectLoop_mem (limit num_projects : Nat) (users : List User)
    (rand : Nat → TaskRand) (fanDraw : Nat → Nat) :
    ∀ ps i acc ts t, projectLoop limit num_projects users rand fanDraw ps i acc = .ok ts →
      t ∈ ts → t ∈ acc ∨ ∃ p tr, t = mkTask p users tr := by
  intro ps
  induction ps with
  | nil =>
    intro i acc ts t hok ht
    rw [projectLoop] at hok
    simp only [Except.ok.injEq] at hok
    subst hok
    exact Or.inl ht
  | cons p ps ih =>
    intro i acc ts t hok ht
    simp only [projectLoop] at hok
    by_cases hc : taskFanoutLo limit num_projects > taskFanoutHi limit num_projects
    · rw [if_pos hc] at hok
      exact absurd hok (by simp)
    · rw [if_neg hc] at hok
      by_cases hh : (taskLoop limit p users rand
          (drawnNumTasks limit num_projects (fanDraw i)) acc).2 = true
      · rw [if_pos hh] at hok
        simp only [Except.ok.injEq] at hok
        subst hok
        rcases taskLoop_mem limit p users rand
            (drawnNumTasks limit num_projects (fanDraw i)) acc t ht with h1 | ⟨tr, h2⟩
        · exact Or.inl h1
        · exact Or.inr ⟨p, tr, h2⟩
      · rw [if_neg hh] at hok
        rcases ih (i + 1) _ ts t hok ht with h1 | h2
        · rcases taskLoop_mem limit p users rand
              (drawnNumTasks limit num_projects (fanDraw i)) acc t h1 with h3 | ⟨tr, h4⟩
          · exact Or.inl h3
          · exact Or.inr ⟨p, tr, h4⟩
        · exact Or.inr h2

theorem subtaskParentLoop_mem (users : List User) (fanDraw : Nat → Nat)
    (rand : Nat → Nat → SubtaskRand) :
    ∀ parents i s, s ∈ subtaskParentLoop users fanDraw rand parents i →
      ∃ parent pd sr, s = mkSubtask parent pd users sr := by
  intro parents
  induction parents with
  | nil =>
    intro i s hs
    rw [subtaskParentLoop] at hs
    simp at hs
  | cons parent rest ih =>
    intro i s hs
    rw [subtaskParentLoop] at hs
    cases hdue : parent.due_date with
    | none =>
      rw [hdue] at hs
      exact ih (i + 1) s hs
    | some pd =>
      rw [hdue] at hs
      simp only at hs
      rcases List.mem_append.mp hs with h1 | h2
      · obtain ⟨j, _, hj⟩ := List.mem_map.mp h1
        exact ⟨parent, pd, rand i j, hj.symm⟩
      · exact ih (i + 1) s h2

/-- C9: every task emitted by `generate_tasks` and every subtask emitted
by `generate_subtasks` has its `completed` flag equal to the presence of
its completion date: `completed` holds iff `completed_at` is non-`None`. -/
theorem completed_iff_completed_at :
    (∀ projects users limit fanout rand ts,
        generate_tasks projects users limit fanout rand = .ok ts →
        ∀ t ∈ ts, t.completed = t.completed_at.isSome) ∧
    (∀ tasks users gate fanDraw rand,
        ∀ s ∈ generate_subtasks tasks users gate fanDraw rand,
          s.completed = s.completed_at.isSome) := by
  constructor
  · intro projects users limit fanout rand ts hok t ht
    rw [generate_tasks] at hok
    by_cases he : projects.isEmpty = true
    · rw [if_pos he] at hok
      exact absurd hok (by simp)
    · rw [if_neg he] at hok
      rcases projectLoop_mem limit projects.length users rand fanout projects 0 [] ts t
          hok ht with hin | ⟨p, tr, rfl⟩
      · simp at hin
      · exact mkTask_completed_eq p users tr
  · intro tasks users gate fanDraw rand s hs
    rw [generate_subtasks] at hs
    by_cases he : tasks.isEmpty = true
    · rw [if_pos he] at hs
      simp at hs
    · rw [if_neg he] at hs
      obtain ⟨parent, pd, sr, rfl⟩ :=
        subtaskParentLoop_mem users fanDraw rand (gateFilter gate tasks 0) 0 s hs
      exact mkSubtask_completed_eq parent pd users sr

/-- Witness for `completed_iff_completed_at`: the first subtask of a
concrete run has its flag equal to the presence of its completion date. -/
theorem completed_iff_completed_at_witness :
    ((generate_subtasks [sampleParentTask] [] (fun _ => true) (fun _ => 0)
        (fun _ _ => sampleSubtaskRand)).getD 0 default).completed =
      ((generate_subtasks [sampleParentTask] [] (fun _ => true) (fun _ => 0)
        (fun _ _ => sampleSubtaskRand)).getD 0 default).completed_at.isSome := by
  have hlen : 0 < (generate_subtasks [sampleParentTask] [] (fun _ => true) (fun _ => 0)
      (fun _ _ => sampleSubtaskRand)).length := by decide
  refine completed_iff_completed_at.2 [sampleParentTask] [] (fun _ => true) (fun _ => 0)
    (fun _ _ => sampleSubtaskRand) _ ?_
  rw [List.getD_eq_getElem _ _ hlen]
  exact List.getElem_mem hlen

theorem mkProject_end_date_iff (team : Team) (department : String) (pr : ProjectRand) :
    (mkProject team department pr).end_date.isSome = true ↔
      ((mkProject team department pr).status = "Completed" ∨
        (mkProject team department pr).status = "Active") := by
  simp only [mkProject, ensure_chronology_due_isSome]
  by_cases hc : weighted_choiceD PROJECT_STATUS_WEIGHTS pr.statusR = "Completed" ∨
      weighted_choiceD PROJECT_STATUS_WEIGHTS pr.statusR = "Active"
  · simp [hc]
  · simp [hc]

theorem generate_projects_loop_mem (deptDraw fanDraw : Nat → Nat)
    (rand : Nat → Nat → ProjectRand) :
    ∀ teams i p, p ∈ generate_projects_loop deptDraw fanDraw rand teams i →
      ∃ team dept pr, p = mkProject team dept pr := by
  intro teams
  induction teams with
  | nil =>
    intro i p hp
    rw [generate_projects_loop] at hp
    simp at hp
  | cons team rest ih =>
    intro i p hp
    rw [generate_projects_loop] at hp
    rcases List.mem_append.mp hp with h1 | h2
    · obtain ⟨j, _, hj⟩ := List.mem_map.mp h1
      exact ⟨team, resolveDepartment team (deptDraw i), rand i j, hj.symm⟩
    · exact ih (i + 1) p h2

/-- C6 (counterexample): a concrete run of `generate_projects` emits a
project whose status is `"Active"` — an in-flight, non-terminal status —
that nevertheless carries an end date. -/
theorem generate_projects_active_has_end_date :
    ((((generate_projects [sampleTeam] (fun _ => 0) (fun _ => 0)
        (fun _ _ => sampleProjectRand)).toOption.getD []).getD 0 default).status
      = "Active") ∧
    ((((generate_projects [sampleTeam] (fun _ => 0) (fun _ => 0)
        (fun _ _ => sampleProjectRand)).toOption.getD []).getD 0 default).end_date.isSome
      = true) := by
  have hb : bisect_right [(60 : ℚ), 85, 95, 100] 0 0 3 = 0 := by
    rw [bisect_right]
    norm_num [List.getD]
    rw [bisect_right]
    norm_num [List.getD]
    rw [bisect_right]
    norm_num
  have hstatus : weighted_choiceD PROJECT_STATUS_WEIGHTS 0 = "Active" := by
    rw [weighted_choiceD, weighted_choice]
    simp only [PROJECT_STATUS_WEIGHTS, python_choices_one, cumsum]
    norm_num [List.getLastD]
    rw [hb]
    rfl
  have hps : ((generate_projects [sampleTeam] (fun _ => 0) (fun _ => 0)
      (fun _ _ => sampleProjectRand)).toOption.getD []).getD 0 default =
      mkProject sampleTeam "Engineering" sampleProjectRand := by rfl
  rw [hps]
  constructor
  · simp only [mkProject, sampleProjectRand]
    exact hstatus
  · simp only [mkProject, ensure_chronology_due_isSome, sampleProjectRand]
    rw [hstatus]
    simp

/-- C6 (amended): an emitted project carries an end date exactly when its
status is `"Completed"` or `"Active"`; projects with status `"On Hold"`
or `"Not Started"` carry none. -/
theorem generate_projects_end_date_iff (teams : List Team) (deptDraw fanDraw : Nat → Nat)
    (rand : Nat → Nat → ProjectRand) (ps : List Project)
    (hok : generate_projects teams deptDraw fanDraw rand = .ok ps) :
    ∀ p ∈ ps, (p.end_date.isSome = true ↔
      (p.status = "Completed" ∨ p.status = "Active")) := by
  intro p hp
  rw [generate_projects] at hok
  by_cases he : teams.isEmpty = true
  · rw [if_pos he] at hok
    exact absurd hok (by simp)
  · rw [if_neg he] at hok
    simp only [Except.ok.injEq] at hok
    subst hok
    obtain ⟨team, dept, pr, rfl⟩ :=
      generate_projects_loop_mem deptDraw fanDraw rand teams 0 p hp
    exact mkProject_end_date_iff team dept pr

/-- Witness for `generate_projects_end_date_iff` at a concrete run. -/
theorem generate_projects_end_date_iff_witness :
    (((generate_projects [sampleTeam] (fun _ => 0) (fun _ => 0)
        (fun _ _ => sampleProjectRand)).toOption.getD []).getD 0 default).end_date.isSome
      = true ↔
    ((((generate_projects [sampleTeam] (fun _ => 0) (fun _ => 0)
        (fun _ _ => sampleProjectRand)).toOption.getD []).getD 0 default).status
        = "Completed" ∨
      (((generate_projects [sampleTeam] (fun _ => 0) (fun _ => 0)
        (fun _ _ => sampleProjectRand)).toOption.getD []).getD 0 default).status
        = "Active") := by
  have hlen : 0 < ((generate_projects [sampleTeam] (fun _ => 0) (fun _ => 0)
      (fun _ _ => sampleProjectRand)).toOption.getD []).length := by decide
  refine generate_projects_end_date_iff [sampleTeam] (fun _ => 0) (fun _ => 0)
    (fun _ _ => sampleProjectRand) _ rfl _ ?_
  rw [List.getD_eq_getElem _ _ hlen]
  exact List.getElem_mem hlen

theorem sectionRows_length (p : Project) (uuid : Nat → String) (dd : Nat → Nat) :
    ∀ names idx, (sectionRows p uuid dd names idx).length = names.length := by
  intro names
  induction names with
  | nil => intro idx; rfl
  | cons name rest ih =>
    intro idx
    rw [sectionRows]
    simp [ih (idx + 1)]

theorem sectionRows_map_position (p : Project) (uuid : Nat → String) (dd : Nat → Nat) :
    ∀ names idx, (sectionRows p uuid dd names idx).map Section.position =
      List.range' idx names.length := by
  intro names
  induction names with
  | nil => intro idx; rfl
  | cons name rest ih =>
    intro idx
    rw [sectionRows, List.length_cons, List.range'_succ]
    simp [ih (idx + 1)]

theorem sectionRows_map_name (p : Project) (uuid : Nat → String) (dd : Nat → Nat) :
    ∀ names idx, (sectionRows p uuid dd names idx).map Section.name = names := by
  intro names
  induction names with
  | nil => intro idx; rfl
  | cons name rest ih =>
    intro idx
    rw [sectionRows]
    simp [ih (idx + 1)]

theorem sectionRows_project_id (p : Project) (uuid : Nat → String) (dd : Nat → Nat) :
    ∀ names idx s, s ∈ sectionRows p uuid dd names idx →
      s.project_id = p.project_id := by
  intro names
  induction names with
  | nil =>
    intro idx s hs
    rw [sectionRows] at hs
    simp at hs
  | cons name rest ih =>
    intro idx s hs
    rw [sectionRows] at hs
    rcases List.mem_cons.mp hs with h1 | h2
    · rw [h1]
    · exact ih (idx + 1) s h2

theorem sectionsFor_spec (p : Project) (numDraw : Nat) (uuid : Nat → String)
    (dd : Nat → Nat) :
    (sectionsFor p numDraw uuid dd).map Section.position =
        List.range' 1 (sectionsFor p numDraw uuid dd).length ∧
    (∀ s ∈ sectionsFor p numDraw uuid dd, s.project_id = p.project_id) ∧
    (p.department = "Engineering" →
      ((sectionsFor p numDraw uuid dd).length = 5 ∨
        (sectionsFor p numDraw uuid dd).length = 6) ∧
      (sectionsFor p numDraw uuid dd).map Section.name =
        ENGINEERING_SECTIONS.take (sectionsFor p numDraw uuid dd).length) := by
  refine ⟨?_, ?_, ?_⟩
  · rw [sectionsFor, sectionRows_map_position, sectionRows_length]
  · intro s hs
    exact sectionRows_project_id p uuid dd _ 1 s hs
  · intro heng
    have htemplate : choose_section_template p.department = ENGINEERING_SECTIONS := by
      rw [heng, choose_section_template, if_pos (Or.inl rfl)]
    have hcount : sectionCount p.department numDraw = 5 ∨
        sectionCount p.department numDraw = 6 := by
      rw [heng, sectionCount, if_pos (Or.inl rfl), pyRandint]
      have : numDraw % ((6 : Int) - 5 + 1).toNat < ((6 : Int) - 5 + 1).toNat :=
        Nat.mod_lt _ (by norm_num)
      omega
    constructor
    · rw [sectionsFor, sectionRows_length, htemplate]
      rcases hcount with h | h <;> rw [h] <;> simp [ENGINEERING_SECTIONS]
    · rw [sectionsFor, sectionRows_map_name, sectionRows_length, htemplate]
      rcases hcount with h | h <;> rw [h] <;> rfl

theorem generate_sections_loop_spec (numDraw : Nat → Nat) (uuid : Nat → Nat → String)
    (dd : Nat → Nat → Nat) :
    ∀ projects i, ∃ blocks : List (List Section),
      generate_sections_loop numDraw uuid dd projects i = blocks.flatten ∧
      List.Forall₂ (fun (p : Project) (blk : List Section) =>
          blk.map Section.position = List.range' 1 blk.length ∧
          (∀ s ∈ blk, s.project_id = p.project_id) ∧
          (p.department = "Engineering" →
            (blk.length = 5 ∨ blk.length = 6) ∧
            blk.map Section.name = ENGINEERING_SECTIONS.take blk.length))
        projects blocks := by
  intro projects
  induction projects with
  | nil =>
    intro i
    exact ⟨[], rfl, List.Forall₂.nil⟩
  | cons p rest ih =>
    intro i
    obtain ⟨blocks, hflat, hrel⟩ := ih (i + 1)
    refine ⟨sectionsFor p (numDraw i) (uuid i) (dd i) :: blocks, ?_, ?_⟩
    · rw [generate_sections_loop, hflat, List.flatten_cons]
    · exact List.Forall₂.cons (sectionsFor_spec p (numDraw i) (uuid i) (dd i)) hrel

/-- C8: the output of `generate_sections` is the concatenation of
per-project blocks, one per input project in order, where every block
carries its project's id and its positions are exactly the dense
sequence `1..N` (as `List.range' 1 N`); for a project whose department
is `"Engineering"` the block has exactly 5 or 6 sections whose names
are a prefix of the engineering template. -/
theorem generate_sections_dense_positions (projects : List Project)
    (numDraw : Nat → Nat) (uuid : Nat → Nat → String) (dd : Nat → Nat → Nat) :
    ∃ blocks : List (List Section),
      generate_sections projects numDraw uuid dd = blocks.flatten ∧
      List.Forall₂ (fun (p : Project) (blk : List Section) =>
          blk.map Section.position = List.range' 1 blk.length ∧
          (∀ s ∈ blk, s.project_id = p.project_id) ∧
          (p.department = "Engineering" →
            (blk.length = 5 ∨ blk.length = 6) ∧
            blk.map Section.name = ENGINEERING_SECTIONS.take blk.length))
        projects blocks := by
  by_cases he : projects.isEmpty = true
  · obtain rfl : projects = [] := by
      cases projects with
      | nil => rfl
      | cons a l => simp at he
    exact ⟨[], by rw [generate_sections]; rfl, List.Forall₂.nil⟩
  · rw [generate_sections, if_neg he]
    exact generate_sections_loop_spec numDraw uuid dd projects 0

/-- Witness for `generate_sections_dense_positions` at a concrete
engineering project. -/
theorem generate_sections_dense_positions_witness :
    ∃ blocks : List (List Section),
      generate_sections [sampleProject] (fun _ => 0) (fun _ _ => "u") (fun _ _ => 0) =
        blocks.flatten ∧
      List.Forall₂ (fun (p : Project) (blk : List Section) =>
          blk.map Section.position = List.range' 1 blk.length ∧
          (∀ s ∈ blk, s.project_id = p.project_id) ∧
          (p.department = "Engineering" →
            (blk.length = 5 ∨ blk.length = 6) ∧
            blk.map Section.name = ENGINEERING_SECTIONS.take blk.length))
        [sampleProject] blocks :=
  generate_sections_dense_positions [sampleProject] (fun _ => 0) (fun _ _ => "u")
    (fun _ _ => 0)

/-- C3 (code bug): identifiers are not a function of the master seed.
`generate_uuid` wraps `uuid.uuid4()`, which draws from the operating
system's entropy source rather than the `random.seed`-seeded stream, so
two runs with identical seeded draws but different OS entropy mint
different ids — here two runs of `generate_tasks` (one project, limit
10, a valid fan-out range) whose seeded draw oracles agree produce
different outputs, contradicting byte-identical reproducibility. -/
theorem generate_uuid_breaks_seed_determinism :
    generate_uuid (some "task") "2f3a" ≠ generate_uuid (some "task") "7b9c" ∧
    generate_tasks [sampleProject] [] 10 (fun _ => 0)
        (fun _ => { sampleTaskRand with uuid := "2f3a" }) ≠
      generate_tasks [sampleProject] [] 10 (fun _ => 0)
        (fun _ => { sampleTaskRand with uuid := "7b9c" }) := by
  constructor
  · decide
  · intro h
    have e1 : (((generate_tasks [sampleProject] [] 10 (fun _ => 0)
        (fun _ => { sampleTaskRand with uuid := "2f3a" })).toOption.getD []).getD 0
          default).task_id = "task_2f3a" := by rfl
    have e2 : (((generate_tasks [sampleProject] [] 10 (fun _ => 0)
        (fun _ => { sampleTaskRand with uuid := "7b9c" })).toOption.getD []).getD 0
          default).task_id = "task_7b9c" := by rfl
    have hids : (((generate_tasks [sampleProject] [] 10 (fun _ => 0)
        (fun _ => { sampleTaskRand with uuid := "2f3a" })).toOption.getD []).getD 0
          default).task_id =
        (((generate_tasks [sampleProject] [] 10 (fun _ => 0)
        (fun _ => { sampleTaskRand with uuid := "7b9c" })).toOption.getD []).getD 0
          default).task_id := by rw [h]
    rw [e1, e2] at hids
    exact absurd hids (by decide)

/-- C1: `ensure_chronology` refines the spec's reconciliation algorithm:
for every input triple and every pair of stream draws there are uniform
offsets `u1, u2 ∈ [1,7]` such that the function returns exactly the
spec's step-1..5 result — `created` unchanged, an out-of-order `due`
replaced by `created + u1`, the completed-date check anchored at the
possibly-corrected `due` (or `created` when `due` is absent) with an
out-of-order `completed` replaced by `reference + u2`, and absent fields
kept absent. -/
theorem ensure_chronology_refines_spec (created : Int) (due completed : Option Int)
    (dueDraw compDraw : Nat) :
    ∃ u1 u2 : Int, (1 ≤ u1 ∧ u1 ≤ 7) ∧ (1 ≤ u2 ∧ u2 ≤ 7) ∧
      ensure_chronology created due completed dueDraw compDraw =
        spec_reconcile created due completed u1 u2 := by
  exact ⟨pyRandint 1 7 dueDraw, pyRandint 1 7 compDraw,
    pyRandint_one_seven_bounds dueDraw, pyRandint_one_seven_bounds compDraw, rfl⟩

/-- C5: `ensure_chronology` is idempotent on its own output, whatever
stream draws are used in either application. -/
theorem ensure_chronology_idempotent (created : Int) (due completed : Option Int)
    (d1 d2 e1 e2 : Nat) :
    ensure_chronology (ensure_chronology created due completed d1 d2).created_at
      (ensure_chronology created due completed d1 d2).due_date
      (ensure_chronology created due completed d1 d2).completed_at e1 e2 =
    ensure_chronology created due completed d1 d2 := by
  obtain ⟨hu1, hu1'⟩ := pyRandint_one_seven_bounds d1
  obtain ⟨hu2, hu2'⟩ := pyRandint_one_seven_bounds d2
  rcases due with _ | d <;> rcases completed with _ | c
  · rfl
  · simp only [ensure_chronology, Option.getD]
    by_cases h : c < created
    · have hstay : ¬ created + pyRandint 1 7 d2 < created := by omega
      simp [h, hstay]
    · simp [h]
  · simp only [ensure_chronology]
    by_cases h : d < created
    · have hstay : ¬ created + pyRandint 1 7 d1 < created := by omega
      simp [h, hstay]
    · simp [h]
  · simp only [ensure_chronology, Option.getD]
    by_cases hd : d < created
    · have hstay : ¬ created + pyRandint 1 7 d1 < created := by omega
      by_cases hc : c < created + pyRandint 1 7 d1
      · have hstay2 : ¬ created + pyRandint 1 7 d1 + pyRandint 1 7 d2 <
            created + pyRandint 1 7 d1 := by omega
        simp [hd, hc, hstay, hstay2]
      · simp [hd, hc, hstay]
    · by_cases hc : c < d
      · have hstay2 : ¬ d + pyRandint 1 7 d2 < d := by omega
        simp [hd, hc, hstay2]
      · simp [hd, hc]

/-- C10: `random_date` is total and its result always lies between the
two bounds, both endpoints inclusive, even when they are given out of
order (they are swapped); in particular the function is symmetric in its
bounds. -/
theorem random_date_bounds (start stop : Int) (draw : Nat) :
    min start stop ≤ random_date start stop draw ∧
      random_date start stop draw ≤ max start stop ∧
      random_date start stop draw = random_date stop start draw := by
  unfold random_date
  rcases lt_trichotomy start stop with h | h | h
  · have hns : ¬ start > stop := by omega
    have hs : stop > start := h
    have hm := pyRandint_mem 0 (stop - start) draw (by omega)
    simp only [if_pos hs, if_neg hns]
    refine ⟨?_, ?_, trivial⟩
    · simp only [min_def]
      split_ifs <;> omega
    · simp only [max_def]
      split_ifs <;> omega
  · subst h
    have hns : ¬ start > start := by omega
    have hm := pyRandint_mem 0 (start - start) draw (by omega)
    simp only [if_neg hns]
    refine ⟨?_, ?_, trivial⟩
    · simp only [min_self]
      omega
    · simp only [max_self]
      omega
  · have hs : start > stop := h
    have hns : ¬ stop > start := by omega
    have hm := pyRandint_mem 0 (start - stop) draw (by omega)
    simp only [if_pos hs, if_neg hns]
    refine ⟨?_, ?_, trivial⟩
    · simp only [min_def]
      split_ifs <;> omega
    · simp only [max_def]
      split_ifs <;> omega

end Asana
